import Mathlib

/-!
Verification of the billing aggregation logic of the connected-accounting
repository.  The definitions below are shallow embeddings of the functions in
src/src/pages/Dashboard.tsx, src/src/pages/Invoices.tsx,
src/src/pages/ClientDetail.tsx and the Expenses page: monetary amounts are
modelled as exact rationals (the JS code manipulates plain numbers with no
rounding step of its own), statuses as the raw strings the code compares
against, and calendar dates as year/month/day triples.
-/

namespace ConnectedAccounting

/-- Calendar date (year, month 1-12, day of month), the information carried by
the ISO date strings stored in the database. -/
structure SDate where
  year : Nat
  month : Nat
  day : Nat
deriving DecidableEq

/-- Payment row as selected by Dashboard.tsx loadStats
(`amount, status, paid_date`).  `created_at` is never used by the
aggregations and is omitted. -/
structure PaymentRow where
  amount : ℚ
  status : String
  paid_date : Option SDate
deriving DecidableEq

/-- Dashboard.tsx loadStats `totalPaid`: filter status "paid", then reduce
`(sum, p) => sum + Number(p.amount)` starting from 0. -/
def totalPaid (ps : List PaymentRow) : ℚ :=
  (ps.filter (fun p => p.status == "paid")).foldl (fun s p => s + p.amount) 0

/-- Dashboard.tsx loadStats `totalPending`: filter status "pending" or
"overdue", then reduce with + from 0.  ClientDetail.tsx computes the same two
totals over the client-scoped payment list. -/
def totalPending (ps : List PaymentRow) : ℚ :=
  (ps.filter (fun p => p.status == "pending" || p.status == "overdue")).foldl
    (fun s p => s + p.amount) 0

/-- Sum of all payment amounts (the right-hand side of the partition claim). -/
def totalAmount (ps : List PaymentRow) : ℚ :=
  ps.foldl (fun s p => s + p.amount) 0

/-- Invoice line item state kept by Invoices.tsx (`InvoiceItem`). -/
structure InvoiceItem where
  description : String
  quantity : ℚ
  unit_price : ℚ
  amount : ℚ
deriving DecidableEq

/-- Invoices.tsx `calculateItemAmount`: `quantity * unitPrice`, with no
validation of either argument and no rounding. -/
def calculateItemAmount (quantity unitPrice : ℚ) : ℚ :=
  quantity * unitPrice

/-- Result record of Invoices.tsx `calculateTotals`. -/
structure Totals where
  subtotal : ℚ
  taxAmount : ℚ
  total : ℚ
deriving DecidableEq

/-- Invoices.tsx `calculateTotals`: subtotal reduces the item amounts with +
from 0, `taxRate = tax_rate / 100`, `taxAmount = subtotal * taxRate` (no
rounding), `total = subtotal + taxAmount`.  `tax_rate` is the parsed numeric
form value. -/
def calculateTotals (items : List InvoiceItem) (tax_rate : ℚ) : Totals :=
  let subtotal := items.foldl (fun s it => s + it.amount) 0
  let taxRate := tax_rate / 100
  let taxAmount := subtotal * taxRate
  let total := subtotal + taxAmount
  ⟨subtotal, taxAmount, total⟩

/-- Field selector of Invoices.tsx `handleItemChange`. -/
inductive ItemField
  | description
  | quantity
  | unit_price
deriving DecidableEq

/-- Value written into an item field (`string | number` in the TS code; the
numeric fields always receive numbers here, matching how the handler is
invoked with `Number(...)` coercion before the amount is recomputed). -/
inductive FieldVal
  | str (v : String)
  | num (v : ℚ)
deriving DecidableEq

/-- One item with one field replaced (`{ ...item, [field]: value }`). -/
def setItemField (it : InvoiceItem) : ItemField → FieldVal → InvoiceItem
  | ItemField.description, FieldVal.str v => { it with description := v }
  | ItemField.description, FieldVal.num _ => it
  | ItemField.quantity, FieldVal.num v => { it with quantity := v }
  | ItemField.quantity, FieldVal.str _ => it
  | ItemField.unit_price, FieldVal.num v => { it with unit_price := v }
  | ItemField.unit_price, FieldVal.str _ => it

/-- Invoices.tsx `handleItemChange`: replace the field at index `i`; when the
field is quantity or unit_price, recompute `amount` via
`calculateItemAmount`.  An out-of-range index leaves the list unchanged (the
UI only ever calls it in range). -/
def handleItemChange (items : List InvoiceItem) (i : Nat) (f : ItemField)
    (v : FieldVal) : List InvoiceItem :=
  match items.get? i with
  | none => items
  | some it =>
      let it1 := setItemField it f v
      let it2 :=
        if f == ItemField.quantity || f == ItemField.unit_price then
          { it1 with amount := calculateItemAmount it1.quantity it1.unit_price }
        else it1
      items.set i it2

/-- Payment dialog form state in ClientDetail.tsx. -/
structure PaymentForm where
  amount : ℚ
  status : String
  description : String
  due_date : Option SDate
deriving DecidableEq

/-- Payment row written by ClientDetail.tsx `handleAddPayment`. -/
structure PaymentRecord where
  amount : ℚ
  status : String
  description : Option String
  due_date : Option SDate
  paid_date : Option SDate
deriving DecidableEq

/-- ClientDetail.tsx `handleAddPayment`: the row written to the store.  The
create and update branches build the identical field set, in particular
`paid_date: status === "paid" ? today : null` where `today` is the date of
the operation.  The empty-string description is stored as null. -/
def savePayment (form : PaymentForm) (today : SDate) : PaymentRecord :=
  { amount := form.amount
    status := form.status
    description := if form.description = "" then none else some form.description
    due_date := form.due_date
    paid_date := if form.status = "paid" then some today else none }

/-- Expense row as used by the Expenses page. -/
structure ExpenseRow where
  amount : ℚ
  date : SDate
deriving DecidableEq

/-- Expenses page `totalExpenses`: reduce all amounts with + from 0. -/
def totalExpenses (es : List ExpenseRow) : ℚ :=
  es.foldl (fun s e => s + e.amount) 0

/-- Expenses page `monthlyExpenses`: keep expenses whose date has the current
month and current year (`getMonth`/`getFullYear` comparison), then reduce
with + from 0. -/
def monthlyExpenses (es : List ExpenseRow) (now : SDate) : ℚ :=
  (es.filter (fun e => e.date.month == now.month && e.date.year == now.year)).foldl
    (fun s e => s + e.amount) 0

/-- Insertion-ordered association list mirroring a JS `Map`: `set` on an
existing key updates the value in place, a new key is appended at the end. -/
def upsert {V : Type} (k : Nat) (f : Option V → V) :
    List (Nat × V) → List (Nat × V)
  | [] => [(k, f none)]
  | (q, v) :: rest =>
      if q = k then (q, f (some v)) :: rest else (q, v) :: upsert k f rest

/-- `Map.get`: the value stored under a key, if any. -/
def alookup {V : Type} (k : Nat) : List (Nat × V) → Option V
  | [] => none
  | (q, v) :: rest => if q = k then some v else alookup k rest

/-- The keys of the map in insertion order. -/
def akeys {V : Type} (m : List (Nat × V)) : List Nat :=
  m.map Prod.fst

/-- Numeric encoding of the `format(startOfMonth(paid_date), "MMM yyyy")`
grouping label used by Dashboard.tsx: the label determines and is determined
by the (year, month) pair, and the chronological order of the parsed labels
is the order of this encoding. -/
def mKey (d : SDate) : Nat := d.year * 12 + (d.month - 1)

/-- Numeric encoding of the `format(paid_date, "MMM dd")` timeline label: the
year is deliberately absent, exactly as in the format string, so dates of
different years sharing month and day receive the same key. -/
def dKey (d : SDate) : Nat := d.month * 100 + d.day

/-- The monthly bucket key a payment contributes to: present exactly when
`payment.status === "paid" && payment.paid_date` holds in
Dashboard.tsx processChartData. -/
def pMonthKey (p : PaymentRow) : Option Nat :=
  match p.paid_date with
  | some d => if p.status == "paid" then some (mKey d) else none
  | none => none

/-- The daily timeline key of a payment, under the same paid-with-date guard
as the monthly key. -/
def pDayKey (p : PaymentRow) : Option Nat :=
  match p.paid_date with
  | some d => if p.status == "paid" then some (dKey d) else none
  | none => none

/-- One step of a grouping pass: route the payment to the bucket named by its
key (if any) and combine it into the stored value. -/
def gStep {V : Type} (key : PaymentRow → Option Nat)
    (g : PaymentRow → Option V → V)
    (m : List (Nat × V)) (p : PaymentRow) : List (Nat × V) :=
  match key p with
  | some k => upsert k (g p) m
  | none => m

/-- Value combination of the monthly map: revenue accumulates the amount,
count increments. -/
def monthCombine (p : PaymentRow) : Option (ℚ × Nat) → ℚ × Nat
  | some rc => (rc.1 + p.amount, rc.2 + 1)
  | none => (p.amount, 1)

/-- Dashboard.tsx `monthlyMap`: one forEach pass over the payments, grouping
the paid ones with a paid_date by month label. -/
def monthlyMap (ps : List PaymentRow) : List (Nat × (ℚ × Nat)) :=
  ps.foldl (gStep pMonthKey monthCombine) []

/-- Pointwise order on buckets by key, the order produced by the
`new Date(a.month).getTime() - new Date(b.month).getTime()` comparator. -/
def keyLE {V : Type} (a b : Nat × V) : Prop := a.1 ≤ b.1

instance {V : Type} : DecidableRel (keyLE (V := V)) :=
  fun a b => Nat.decLe a.1 b.1

instance {V : Type} : IsTotal (Nat × V) keyLE :=
  ⟨fun a b => Nat.le_total a.1 b.1⟩

instance {V : Type} : IsTrans (Nat × V) keyLE :=
  ⟨fun _ _ _ h1 h2 => Nat.le_trans h1 h2⟩

/-- Dashboard.tsx `monthly`: map entries sorted ascending by (parsed) month
label, then `slice(-6)`. -/
def monthly (ps : List PaymentRow) : List (Nat × (ℚ × Nat)) :=
  let sorted := (monthlyMap ps).insertionSort keyLE
  sorted.drop (sorted.length - 6)

/-- Value combination of the timeline map: `(timelineMap.get(k) || 0) + amount`. -/
def dayCombine (p : PaymentRow) (o : Option ℚ) : ℚ :=
  o.getD 0 + p.amount

/-- Dashboard.tsx `timelineMap`: built in the same guarded branch of the same
forEach pass as the monthly map, keyed by the "MMM dd" label. -/
def timelineMap (ps : List PaymentRow) : List (Nat × ℚ) :=
  ps.foldl (gStep pDayKey dayCombine) []

/-- Dashboard.tsx `timeline`: map entries in insertion order, then
`slice(-30)`.  No sorting happens here. -/
def timeline (ps : List PaymentRow) : List (Nat × ℚ) :=
  let l := timelineMap ps
  l.drop (l.length - 30)

/-- Dashboard.tsx `statusCount`: one pass over ALL payments accumulating the
amount into the slot selected by the status else-if chain (unknown statuses
fall through and are ignored). -/
def statusFold (ps : List PaymentRow) : ℚ × ℚ × ℚ :=
  ps.foldl (fun acc p =>
    if p.status == "paid" then (acc.1 + p.amount, acc.2.1, acc.2.2)
    else if p.status == "pending" then (acc.1, acc.2.1 + p.amount, acc.2.2)
    else if p.status == "overdue" then (acc.1, acc.2.1, acc.2.2 + p.amount)
    else acc) (0, 0, 0)

/-- Dashboard.tsx `statusDistribution`: the three (label, total) entries in
fixed order Paid, Pending, Overdue, keeping those with value > 0. -/
def statusDistribution (ps : List PaymentRow) : List (String × ℚ) :=
  ([("Paid", (statusFold ps).1), ("Pending", (statusFold ps).2.1),
    ("Overdue", (statusFold ps).2.2)]).filter (fun e => decide (0 < e.2))

/-- Sum of the amounts of the payments with the given status (specification
side of the status distribution). -/
def sumByStatus (ps : List PaymentRow) (s : String) : ℚ :=
  ((ps.filter (fun p => p.status == s)).map (fun p => p.amount)).sum

/-- Sum of the amounts of the paid payments grouped under month key `k`. -/
def eligSum (ps : List PaymentRow) (k : Nat) : ℚ :=
  ((ps.filter (fun p => pMonthKey p == some k)).map (fun p => p.amount)).sum

/-- Number of paid payments grouped under month key `k`. -/
def eligCount (ps : List PaymentRow) (k : Nat) : Nat :=
  (ps.filter (fun p => pMonthKey p == some k)).length

/-- Sum of the amounts of the paid payments grouped under day key `k`. -/
def daySum (ps : List PaymentRow) (k : Nat) : ℚ :=
  ((ps.filter (fun p => pDayKey p == some k)).map (fun p => p.amount)).sum

/-- Number of paid payments grouped under day key `k`. -/
def dayCount (ps : List PaymentRow) (k : Nat) : Nat :=
  (ps.filter (fun p => pDayKey p == some k)).length

/-! ### Concrete inputs for scenarios, witnesses and counterexamples -/

/-- The paid date of the spec scenario payment. -/
def exPaidDate : SDate := ⟨2024, 3, 10⟩

/-- The three-payment scenario: 100.00 paid (2024-03-10), 50.00 pending,
25.00 overdue. -/
def exPayments : List PaymentRow :=
  [⟨100, "paid", some exPaidDate⟩, ⟨50, "pending", none⟩, ⟨25, "overdue", none⟩]

/-- A line item of amount 0.01 (quantity 1 at price 0.01). -/
def c2item : InvoiceItem := ⟨"A", 1, 1/100, 1/100⟩

/-- A pending payment with null paid_date. -/
def c5payment : PaymentRow := ⟨50, "pending", none⟩

/-- A payment form carrying the amount 19.999. -/
def c7form : PaymentForm := ⟨19999/1000, "pending", "", none⟩

/-- An arbitrary operation date. -/
def c7date : SDate := ⟨2024, 5, 1⟩

/-- A line item with quantity 1 at price 10. -/
def c8item : InvoiceItem := ⟨"A", 1, 10, 10⟩

/-- A paid payment of 10 on day 5 of the given month of 2024. -/
def c4pay (m : Nat) : PaymentRow := ⟨10, "paid", some ⟨2024, m, 5⟩⟩

/-- Seven paid payments spanning seven distinct months. -/
def c4payments : List PaymentRow :=
  [c4pay 1, c4pay 2, c4pay 3, c4pay 4, c4pay 5, c4pay 6, c4pay 7]

/-- The February 2024 bucket produced by `monthly c4payments`. -/
def c4bucket : Nat × (ℚ × Nat) := (2024 * 12 + 1, (10, 1))

/-- An expense of 40 in January 2025. -/
def c10expA : ExpenseRow := ⟨40, ⟨2025, 1, 2⟩⟩

/-- An expense of 7 in March 2025. -/
def c10expB : ExpenseRow := ⟨7, ⟨2025, 3, 9⟩⟩

/-- A current date in January 2025. -/
def c10now : SDate := ⟨2025, 1, 15⟩

/-! ### Helper lemmas -/

theorem beq_paid_pending : ("paid" == "pending") = false := by decide

theorem beq_paid_overdue : ("paid" == "overdue") = false := by decide

theorem beq_pending_paid : ("pending" == "paid") = false := by decide

theorem beq_pending_overdue : ("pending" == "overdue") = false := by decide

theorem beq_overdue_paid : ("overdue" == "paid") = false := by decide

theorem beq_overdue_pending : ("overdue" == "pending") = false := by decide

theorem foldl_add_map {α : Type} (f : α → ℚ) (l : List α) (a : ℚ) :
    l.foldl (fun s x => s + f x) a = a + (l.map f).sum := by
  induction l generalizing a with
  | nil => simp
  | cons x l ih => simp [ih, add_assoc]

theorem alookup_upsert_self {V : Type} (k : Nat) (f : Option V → V)
    (m : List (Nat × V)) :
    alookup k (upsert k f m) = some (f (alookup k m)) := by
  induction m with
  | nil => simp [upsert, alookup]
  | cons qv m ih =>
      obtain ⟨q, v⟩ := qv
      by_cases hq : q = k
      · simp [upsert, alookup, hq]
      · simp [upsert, alookup, hq, ih]

theorem alookup_upsert_ne {V : Type} {q k : Nat} (hqk : q ≠ k)
    (f : Option V → V) (m : List (Nat × V)) :
    alookup q (upsert k f m) = alookup q m := by
  induction m with
  | nil => simp [upsert, alookup, Ne.symm hqk]
  | cons pv m ih =>
      obtain ⟨p, v⟩ := pv
      by_cases hp : p = k
      · subst hp
        simp [upsert, alookup, hqk, Ne.symm hqk]
      · by_cases hpq : p = q
        · simp [upsert, alookup, hp, hpq, hqk]
        · simp [upsert, alookup, hp, hpq, ih]

theorem akeys_upsert {V : Type} (k : Nat) (f : Option V → V)
    (m : List (Nat × V)) :
    akeys (upsert k f m) = if k ∈ akeys m then akeys m else akeys m ++ [k] := by
  induction m with
  | nil => simp [upsert, akeys]
  | cons qv m ih =>
      obtain ⟨q, v⟩ := qv
      by_cases hq : q = k
      · simp [upsert, akeys, hq]
      · simp only [upsert, if_neg hq, akeys, List.map_cons] at ih ⊢
        rw [ih]
        by_cases hk : k ∈ m.map Prod.fst
        · simp [hk, Ne.symm hq]
        · simp [hk, Ne.symm hq]

theorem nodup_akeys_upsert {V : Type} (k : Nat) (f : Option V → V)
    {m : List (Nat × V)} (h : (akeys m).Nodup) :
    (akeys (upsert k f m)).Nodup := by
  rw [akeys_upsert]
  by_cases hk : k ∈ akeys m
  · simpa [hk]
  · simpa [hk, List.nodup_append]

theorem alookup_isSome_iff {V : Type} (k : Nat) (m : List (Nat × V)) :
    (alookup k m).isSome = true ↔ k ∈ akeys m := by
  induction m with
  | nil => simp [alookup, akeys]
  | cons qv m ih =>
      obtain ⟨q, v⟩ := qv
      by_cases hq : q = k
      · simp [alookup, akeys, hq]
      · simp [alookup, akeys, hq, ih, Ne.symm hq]

theorem alookup_eq_of_mem {V : Type} {k : Nat} {v : V} {m : List (Nat × V)}
    (hnd : (akeys m).Nodup) (hm : (k, v) ∈ m) :
    alookup k m = some v := by
  induction m with
  | nil => simp at hm
  | cons qv m ih =>
      obtain ⟨q, w⟩ := qv
      simp only [akeys, List.map_cons, List.nodup_cons] at hnd
      rcases List.mem_cons.mp hm with h | h
      · rw [Prod.ext_iff] at h
        obtain ⟨h1, h2⟩ := h
        subst h1
        subst h2
        simp [alookup]
      · have hkq : q ≠ k := by
          intro hqk
          subst hqk
          exact hnd.1 (List.mem_map_of_mem Prod.fst h)
        simp [alookup, hkq, ih hnd.2 h]

theorem alookup_foldl_gStep {V : Type} (key : PaymentRow → Option Nat)
    (g : PaymentRow → Option V → V) (ps : List PaymentRow) :
    ∀ (m : List (Nat × V)) (k : Nat),
      alookup k (ps.foldl (gStep key g) m) =
        (ps.filter (fun p => key p == some k)).foldl
          (fun o p => some (g p o)) (alookup k m) := by
  induction ps with
  | nil => intro m k; simp
  | cons p ps ih =>
      intro m k
      rw [List.foldl_cons, ih, List.filter_cons]
      cases hk : key p with
      | none => simp [gStep, hk]
      | some q =>
          by_cases hq : q = k
          · subst hq
            simp [gStep, hk, alookup_upsert_self]
          · simp [gStep, hk, alookup_upsert_ne (Ne.symm hq), hq]

theorem nodup_akeys_foldl_gStep {V : Type} (key : PaymentRow → Option Nat)
    (g : PaymentRow → Option V → V) (ps : List PaymentRow) :
    ∀ {m : List (Nat × V)}, (akeys m).Nodup →
      (akeys (ps.foldl (gStep key g) m)).Nodup := by
  induction ps with
  | nil => intro m h; simpa
  | cons p ps ih =>
      intro m h
      rw [List.foldl_cons]
      refine ih ?_
      cases hk : key p with
      | none => simpa [gStep, hk]
      | some q => simpa [gStep, hk] using nodup_akeys_upsert q (g p) h

theorem isSome_foldl_some {V : Type} (g : PaymentRow → Option V → V)
    (l : List PaymentRow) :
    ∀ o : Option V, o.isSome = true →
      (l.foldl (fun o p => some (g p o)) o).isSome = true := by
  induction l with
  | nil => intro o h; simpa
  | cons p l ih => intro o _; exact ih (some (g p o)) rfl

theorem foldl_some_ne_nil {V : Type} (g : PaymentRow → Option V → V)
    {l : List PaymentRow} (h : l ≠ []) :
    ((l.foldl (fun o p => some (g p o)) none).isSome) = true := by
  cases l with
  | nil => exact absurd rfl h
  | cons p l => exact isSome_foldl_some g l (some (g p none)) rfl

theorem monthCombine_foldl_some (l : List PaymentRow) :
    ∀ (r : ℚ) (c : Nat),
      l.foldl (fun o p => some (monthCombine p o)) (some (r, c)) =
        some (r + (l.map (fun p => p.amount)).sum, c + l.length) := by
  induction l with
  | nil => intro r c; simp
  | cons p l ih =>
      intro r c
      rw [List.foldl_cons]
      show l.foldl _ (some (r + p.amount, c + 1)) = _
      rw [ih]
      simp [add_assoc, add_comm, add_left_comm]

theorem monthCombine_foldl_none {l : List PaymentRow} (h : l ≠ []) :
    l.foldl (fun o p => some (monthCombine p o)) none =
      some ((l.map (fun p => p.amount)).sum, l.length) := by
  cases l with
  | nil => exact absurd rfl h
  | cons p l =>
      rw [List.foldl_cons]
      show l.foldl _ (some (p.amount, 1)) = _
      rw [monthCombine_foldl_some]
      simp [add_comm]

theorem dayCombine_foldl_some (l : List PaymentRow) :
    ∀ r : ℚ,
      l.foldl (fun o p => some (dayCombine p o)) (some r) =
        some (r + (l.map (fun p => p.amount)).sum) := by
  induction l with
  | nil => intro r; simp
  | cons p l ih =>
      intro r
      rw [List.foldl_cons]
      show l.foldl _ (some (dayCombine p (some r))) = _
      rw [ih]
      simp [dayCombine, add_assoc, add_comm, add_left_comm]

theorem dayCombine_foldl_none {l : List PaymentRow} (h : l ≠ []) :
    l.foldl (fun o p => some (dayCombine p o)) none =
      some ((l.map (fun p => p.amount)).sum) := by
  cases l with
  | nil => exact absurd rfl h
  | cons p l =>
      rw [List.foldl_cons]
      show l.foldl _ (some (dayCombine p none)) = _
      rw [dayCombine_foldl_some]
      simp [dayCombine]

theorem alookup_monthlyMap (ps : List PaymentRow) (k : Nat) :
    alookup k (monthlyMap ps) =
      if eligCount ps k = 0 then none
      else some (eligSum ps k, eligCount ps k) := by
  have h := alookup_foldl_gStep pMonthKey monthCombine ps [] k
  by_cases hl : ps.filter (fun p => pMonthKey p == some k) = []
  · rw [monthlyMap, h]
    simp [alookup, hl, eligCount, eligSum]
  · rw [monthlyMap, h]
    have hnone : alookup k ([] : List (Nat × (ℚ × Nat))) = none := rfl
    rw [hnone, monthCombine_foldl_none hl]
    simp only [eligSum, eligCount]
    rw [if_neg (by simpa [List.length_eq_zero] using hl)]

theorem mem_akeys_monthlyMap (ps : List PaymentRow) (k : Nat) :
    k ∈ akeys (monthlyMap ps) ↔ eligCount ps k ≠ 0 := by
  rw [← alookup_isSome_iff, alookup_monthlyMap]
  by_cases h : eligCount ps k = 0 <;> simp [h]

theorem nodup_akeys_monthlyMap (ps : List PaymentRow) :
    (akeys (monthlyMap ps)).Nodup :=
  nodup_akeys_foldl_gStep pMonthKey monthCombine ps (by simp [akeys])

theorem mem_monthlyMap_value {ps : List PaymentRow} {b : Nat × (ℚ × Nat)}
    (hb : b ∈ monthlyMap ps) :
    b.2.1 = eligSum ps b.1 ∧ b.2.2 = eligCount ps b.1 ∧
      eligCount ps b.1 ≠ 0 := by
  obtain ⟨k, v⟩ := b
  have hl := alookup_eq_of_mem (nodup_akeys_monthlyMap ps) hb
  rw [alookup_monthlyMap] at hl
  by_cases hc : eligCount ps k = 0
  · rw [if_pos hc] at hl
    exact absurd hl (by simp)
  · rw [if_neg hc] at hl
    injection hl with hl
    refine ⟨?_, ?_, hc⟩
    · exact congrArg Prod.fst hl.symm
    · exact congrArg Prod.snd hl.symm

theorem alookup_timelineMap (ps : List PaymentRow) (k : Nat) :
    alookup k (timelineMap ps) =
      if dayCount ps k = 0 then none else some (daySum ps k) := by
  have h := alookup_foldl_gStep pDayKey dayCombine ps [] k
  by_cases hl : ps.filter (fun p => pDayKey p == some k) = []
  · rw [timelineMap, h]
    simp [alookup, hl, dayCount, daySum]
  · rw [timelineMap, h]
    have hnone : alookup k ([] : List (Nat × ℚ)) = none := rfl
    rw [hnone, dayCombine_foldl_none hl]
    simp only [daySum, dayCount]
    rw [if_neg (by simpa [List.length_eq_zero] using hl)]

theorem nodup_akeys_timelineMap (ps : List PaymentRow) :
    (akeys (timelineMap ps)).Nodup :=
  nodup_akeys_foldl_gStep pDayKey dayCombine ps (by simp [akeys])

theorem mem_timelineMap_value {ps : List PaymentRow} {b : Nat × ℚ}
    (hb : b ∈ timelineMap ps) :
    b.2 = daySum ps b.1 ∧ dayCount ps b.1 ≠ 0 := by
  obtain ⟨k, v⟩ := b
  have hl := alookup_eq_of_mem (nodup_akeys_timelineMap ps) hb
  rw [alookup_timelineMap] at hl
  by_cases hc : dayCount ps k = 0
  · rw [if_pos hc] at hl
    exact absurd hl (by simp)
  · rw [if_neg hc] at hl
    injection hl with hl
    exact ⟨hl.symm, hc⟩

theorem sorted_monthly_base (ps : List PaymentRow) :
    ((monthlyMap ps).insertionSort keyLE).Pairwise
      (fun a b : Nat × (ℚ × Nat) => a.1 < b.1) := by
  have hs : ((monthlyMap ps).insertionSort keyLE).Pairwise keyLE :=
    List.sorted_insertionSort keyLE (monthlyMap ps)
  have hperm := List.perm_insertionSort keyLE (monthlyMap ps)
  have hnd : (((monthlyMap ps).insertionSort keyLE).map Prod.fst).Nodup :=
    ((hperm.map Prod.fst).symm.nodup) (nodup_akeys_monthlyMap ps)
  have hne : ((monthlyMap ps).insertionSort keyLE).Pairwise
      (fun a b : Nat × (ℚ × Nat) => a.1 ≠ b.1) :=
    (List.pairwise_map).mp hnd
  exact (hs.and hne).imp (fun h => lt_of_le_of_ne h.1 h.2)

theorem mem_monthly {ps : List PaymentRow} {b : Nat × (ℚ × Nat)}
    (hb : b ∈ monthly ps) : b ∈ monthlyMap ps := by
  have h1 : b ∈ (monthlyMap ps).insertionSort keyLE :=
    List.mem_of_mem_drop hb
  exact ((List.perm_insertionSort keyLE _).mem_iff).mp h1

theorem mem_akeys_monthlyMap_iff_filterMap (ps : List PaymentRow) (k : Nat) :
    k ∈ akeys (monthlyMap ps) ↔ k ∈ ps.filterMap pMonthKey := by
  rw [mem_akeys_monthlyMap, List.mem_filterMap]
  constructor
  · intro hc
    have hl : ps.filter (fun p => pMonthKey p == some k) ≠ [] := by
      simpa [eligCount, List.length_eq_zero] using hc
    obtain ⟨p, hp⟩ := List.exists_mem_of_ne_nil _ hl
    rw [List.mem_filter] at hp
    exact ⟨p, hp.1, by simpa using hp.2⟩
  · rintro ⟨p, hp, hk⟩
    have hmem : p ∈ ps.filter (fun p => pMonthKey p == some k) :=
      List.mem_filter.mpr ⟨hp, by simpa using hk⟩
    simpa [eligCount, List.length_eq_zero] using List.ne_nil_of_mem hmem

theorem length_monthlyMap (ps : List PaymentRow) :
    (monthlyMap ps).length = ((ps.filterMap pMonthKey).dedup).length := by
  have h1 : (monthlyMap ps).length = (akeys (monthlyMap ps)).length := by
    simp [akeys]
  rw [h1, ← List.toFinset_card_of_nodup (nodup_akeys_monthlyMap ps),
    ← List.toFinset_card_of_nodup (List.nodup_dedup _)]
  congr 1
  ext k
  simp only [List.mem_toFinset, List.mem_dedup]
  exact mem_akeys_monthlyMap_iff_filterMap ps k

/-- C4: the monthly-revenue derivation groups payments with status "paid" and
a non-null paid_date by calendar month of paid_date, sums amounts and counts
payments per bucket, sorts the buckets chronologically ascending, and keeps
at most 6 buckets, which are exactly the most recent ones: the result has
min(number of distinct paid months, 6) entries in strictly ascending month
order, each entry carries the exact amount-sum and payment-count of its
month, and every grouped month absent from the result is older than every
kept bucket — also when the paid payments span more than 6 months. -/
theorem monthly_revenue_spec (ps : List PaymentRow) :
    (monthly ps).length = min ((ps.filterMap pMonthKey).dedup).length 6 ∧
    (monthly ps).Pairwise (fun a b : Nat × (ℚ × Nat) => a.1 < b.1) ∧
    (∀ b ∈ monthly ps, b.2.1 = eligSum ps b.1 ∧ b.2.2 = eligCount ps b.1 ∧
      eligCount ps b.1 ≠ 0) ∧
    (∀ p ∈ ps, ∀ k, pMonthKey p = some k →
      k ∉ (monthly ps).map Prod.fst → ∀ b ∈ monthly ps, k < b.1) := by
  refine ⟨?_, ?_, ?_, ?_⟩
  · simp only [monthly, List.length_drop]
    have h1 := length_monthlyMap ps
    have h2 := (List.perm_insertionSort keyLE (monthlyMap ps)).length_eq
    omega
  · simp only [monthly]
    exact (sorted_monthly_base ps).sublist (List.drop_sublist _ _)
  · intro b hb
    exact mem_monthlyMap_value (mem_monthly hb)
  · intro p hp k hk hnotin b hb
    have hkeys : k ∈ akeys (monthlyMap ps) :=
      (mem_akeys_monthlyMap_iff_filterMap ps k).mpr
        (List.mem_filterMap.mpr ⟨p, hp, hk⟩)
    have hperm := List.perm_insertionSort keyLE (monthlyMap ps)
    have hks : k ∈ ((monthlyMap ps).insertionSort keyLE).map Prod.fst :=
      ((hperm.map Prod.fst).mem_iff).mpr hkeys
    obtain ⟨a, ha, hak⟩ := List.mem_map.mp hks
    simp only [monthly] at hb hnotin
    have hmem : a ∈ ((monthlyMap ps).insertionSort keyLE).take
          (((monthlyMap ps).insertionSort keyLE).length - 6) ∨
        a ∈ ((monthlyMap ps).insertionSort keyLE).drop
          (((monthlyMap ps).insertionSort keyLE).length - 6) := by
      rw [← List.mem_append, List.take_append_drop]
      exact ha
    rcases hmem with hta | hda
    · have hle : keyLE a b :=
        List.Pairwise.rel_of_mem_take_of_mem_drop
          (List.sorted_insertionSort keyLE (monthlyMap ps)) hta hb
      have hkb : k ≤ b.1 := hak ▸ hle
      have hneq : k ≠ b.1 := by
        intro he
        exact hnotin (he ▸ List.mem_map_of_mem Prod.fst hb)
      exact lt_of_le_of_ne hkb hneq
    · exact absurd (List.mem_map.mpr ⟨a, hda, hak⟩) hnotin

/-- C9: the daily timeline keeps at most 30 buckets with pairwise distinct
formatted-day keys; each kept bucket carries the exact amount-sum of the paid
payments sharing its day label; the kept buckets are a suffix of the full
bucket list in insertion order (the "last 30"); and the grouping key ignores
the year, so paid_dates of different years sharing month and day collapse
into one bucket. -/
theorem daily_timeline_spec (ps : List PaymentRow) :
    (timeline ps).length ≤ 30 ∧
    ((timeline ps).map Prod.fst).Nodup ∧
    (∀ b ∈ timeline ps, b.2 = daySum ps b.1 ∧ dayCount ps b.1 ≠ 0) ∧
    List.IsSuffix (timeline ps) (timelineMap ps) ∧
    (∀ d e : SDate, d.month = e.month → d.day = e.day → dKey d = dKey e) := by
  refine ⟨?_, ?_, ?_, ?_, ?_⟩
  · simp only [timeline, List.length_drop]
    omega
  · simp only [timeline]
    have hnd := nodup_akeys_timelineMap ps
    exact hnd.sublist ((List.drop_sublist _ _).map Prod.fst)
  · intro b hb
    exact mem_timelineMap_value (List.mem_of_mem_drop hb)
  · simp only [timeline]
    exact List.drop_suffix _ _
  · intro d e h1 h2
    simp [dKey, h1, h2]

theorem sum_filter_partition (ps : List PaymentRow)
    (h : ∀ p ∈ ps,
      p.status = "paid" ∨ p.status = "pending" ∨ p.status = "overdue") :
    ((ps.filter (fun p => p.status == "paid")).map (fun p => p.amount)).sum +
      ((ps.filter (fun p => p.status == "pending" || p.status == "overdue")).map
        (fun p => p.amount)).sum =
      (ps.map (fun p => p.amount)).sum := by
  induction ps with
  | nil => simp
  | cons p ps ih =>
      have hp := h p (List.mem_cons_self p ps)
      have ih2 := ih (fun q hq => h q (List.mem_cons_of_mem p hq))
      rcases hp with hs | hs | hs <;>
        simp [List.filter_cons, hs, beq_paid_pending, beq_paid_overdue,
          beq_pending_paid, beq_pending_overdue, beq_overdue_paid,
          beq_overdue_pending, ← ih2, add_assoc, add_comm, add_left_comm]

/-- C1: over any payment sequence whose statuses all lie in
paid/pending/overdue, the dashboard ledger summary puts every payment in
exactly one bucket: paid_total is the sum of the paid amounts,
outstanding_total the sum of the pending and overdue amounts, their sum is
the sum of all amounts, and the empty sequence yields 0 for both totals
without error. -/
theorem summarize_partition (ps : List PaymentRow)
    (h : ∀ p ∈ ps,
      p.status = "paid" ∨ p.status = "pending" ∨ p.status = "overdue") :
    totalPaid ps =
      ((ps.filter (fun p => p.status == "paid")).map (fun p => p.amount)).sum ∧
    totalPending ps =
      ((ps.filter (fun p => p.status == "pending" || p.status == "overdue")).map
        (fun p => p.amount)).sum ∧
    totalPaid ps + totalPending ps = totalAmount ps ∧
    totalPaid [] = 0 ∧ totalPending [] = 0 := by
  have h1 : totalPaid ps =
      ((ps.filter (fun p => p.status == "paid")).map (fun p => p.amount)).sum := by
    rw [totalPaid, foldl_add_map (fun p : PaymentRow => p.amount), zero_add]
  have h2 : totalPending ps =
      ((ps.filter (fun p => p.status == "pending" || p.status == "overdue")).map
        (fun p => p.amount)).sum := by
    rw [totalPending, foldl_add_map (fun p : PaymentRow => p.amount), zero_add]
  have h3 : totalAmount ps = (ps.map (fun p => p.amount)).sum := by
    rw [totalAmount, foldl_add_map (fun p : PaymentRow => p.amount), zero_add]
  exact ⟨h1, h2, by rw [h1, h2, h3]; exact sum_filter_partition ps h, rfl, rfl⟩

/-- C1 witness: the three-payment scenario satisfies the status hypothesis
and the partition equation. -/
theorem summarize_partition_witness :
    (∀ p ∈ exPayments,
      p.status = "paid" ∨ p.status = "pending" ∨ p.status = "overdue") ∧
    totalPaid exPayments + totalPending exPayments = totalAmount exPayments :=
  ⟨by decide, (summarize_partition exPayments (by decide)).2.2.1⟩

/-- C2 counterexample: with a single line item of amount 0.01 and tax rate
50, the computed tax_amount is 1/200 — half a cent.  Its value in cents,
taxAmount × 100, has denominator 2, so it is not an integer number of cents:
the code does not round the tax to cents as the claim states. -/
theorem calculateTotals_tax_not_rounded :
    (calculateTotals [c2item] 50).taxAmount = 1/200 ∧
    ((calculateTotals [c2item] 50).taxAmount * 100).den = 2 := by
  have h : (calculateTotals [c2item] 50).taxAmount = 1/200 := by
    show (0 + c2item.amount) * (50 / 100) = 1/200
    norm_num [c2item]
  refine ⟨h, ?_⟩
  rw [h]
  norm_num [Rat.den]

/-- C2 (amended): for every line-item sequence and tax rate, the invoice
totals satisfy total = subtotal + tax_amount, subtotal is the sum of the
item amounts (0 for the empty sequence), and tax_amount is subtotal × r/100
computed exactly — not rounded to cents. -/
theorem invoice_totals_spec (items : List InvoiceItem) (r : ℚ) :
    (calculateTotals items r).total =
      (calculateTotals items r).subtotal + (calculateTotals items r).taxAmount ∧
    (calculateTotals items r).taxAmount =
      (calculateTotals items r).subtotal * (r / 100) ∧
    (calculateTotals items r).subtotal =
      (items.map (fun it => it.amount)).sum ∧
    (calculateTotals [] r).subtotal = 0 := by
  refine ⟨rfl, rfl, ?_, rfl⟩
  show items.foldl (fun s it => s + it.amount) 0 = _
  rw [foldl_add_map (fun it : InvoiceItem => it.amount), zero_add]

/-- C3: after every payment create or edit operation, paid_date is non-null
exactly when the saved status is "paid"; saving with status "paid" on date D
stamps paid_date = D (the operation date, not the due date), and saving any
other status clears paid_date to null. -/
theorem payment_paid_date_invariant (form : PaymentForm) (today : SDate) :
    (savePayment form today).paid_date =
      (if form.status = "paid" then some today else none) ∧
    ((savePayment form today).paid_date.isSome = true ↔
      (savePayment form today).status = "paid") := by
  refine ⟨rfl, ?_⟩
  by_cases h : form.status = "paid" <;> simp [savePayment, h]

/-- C7 counterexample: the amount 19.999 is not representable at cent
precision (denominator 1000), yet the payment save path accepts it and
stores it unchanged — no InvalidAmount is raised — and line-item
multiplication likewise produces sub-cent values with no rounding. -/
theorem no_cent_validation :
    (savePayment c7form c7date).amount = 19999/1000 ∧
    ((19999 : ℚ)/1000).den = 1000 ∧
    calculateItemAmount 3 (1/1000) = 3/1000 ∧
    ((3 : ℚ)/1000).den = 1000 := by
  refine ⟨rfl, by norm_num [Rat.den], ?_, by norm_num [Rat.den]⟩
  norm_num [calculateItemAmount]

/-- C7 (amended): monetary values are plain numbers and all monetary
arithmetic is performed directly, with no rounding step and no
cent-precision validation: the item amount is exactly quantity × unit_price,
the tax is exactly subtotal × rate/100, and every amount — cent-exact or
not — is stored unchanged by the payment save path. -/
theorem money_arithmetic_spec (q p r : ℚ) (items : List InvoiceItem)
    (form : PaymentForm) (d : SDate) :
    calculateItemAmount q p = q * p ∧
    (calculateTotals items r).taxAmount =
      (calculateTotals items r).subtotal * (r / 100) ∧
    (savePayment form d).amount = form.amount :=
  ⟨rfl, rfl, rfl⟩

/-- C8 counterexample: quantity 0 and quantity -1 do not fail with
InvalidQuantity — the computation produces the amounts 0 and -10, and the
edit handler stores the computed amount. -/
theorem no_quantity_validation :
    calculateItemAmount 0 5 = 0 ∧
    calculateItemAmount (-1) 10 = -10 ∧
    handleItemChange [c8item] 0 ItemField.quantity (FieldVal.num (-1)) =
      [⟨"A", -1, 10, -10⟩] := by
  refine ⟨by norm_num [calculateItemAmount], by norm_num [calculateItemAmount], ?_⟩
  norm_num [handleItemChange, setItemField, calculateItemAmount, c8item, List.set]

/-- C8 (amended): no validation of quantity or unit price exists: editing an
item with ANY quantity (including ≤ 0) or ANY unit price (including negative
ones) succeeds and stores amount = quantity × unit_price — nothing is
clamped and no error surfaces. -/
theorem item_edit_no_validation (items : List InvoiceItem) (i : Nat)
    (it : InvoiceItem) (q pr : ℚ) (h : items[i]? = some it) :
    handleItemChange items i ItemField.quantity (FieldVal.num q) =
      items.set i { it with quantity := q, amount := q * it.unit_price } ∧
    handleItemChange items i ItemField.unit_price (FieldVal.num pr) =
      items.set i { it with unit_price := pr, amount := it.quantity * pr } := by
  constructor <;> simp [handleItemChange, h, setItemField, calculateItemAmount]

/-- C8 witness: editing the quantity of a concrete one-item list. -/
theorem item_edit_no_validation_witness :
    ([c8item][0]? = some c8item) ∧
    handleItemChange [c8item] 0 ItemField.quantity (FieldVal.num 2) =
      [c8item].set 0 { c8item with quantity := 2, amount := 2 * c8item.unit_price } :=
  ⟨rfl, (item_edit_no_validation [c8item] 0 c8item 2 0 rfl).1⟩

theorem sumByStatus_append_singleton (ps : List PaymentRow) (p : PaymentRow)
    (s : String) :
    sumByStatus (ps ++ [p]) s =
      sumByStatus ps s + (if p.status == s then p.amount else 0) := by
  cases h : p.status == s <;>
    simp [sumByStatus, List.filter_append, List.filter_cons, h]

theorem statusFold_eq (ps : List PaymentRow) :
    statusFold ps = (sumByStatus ps "paid", sumByStatus ps "pending",
      sumByStatus ps "overdue") := by
  induction ps using List.reverseRecOn with
  | nil => simp [statusFold, sumByStatus]
  | append_singleton l p ih =>
      simp only [statusFold] at ih ⊢
      rw [List.foldl_append, List.foldl_cons, List.foldl_nil, ih]
      by_cases h1 : p.status = "paid"
      · simp [h1, beq_paid_pending, beq_paid_overdue,
          sumByStatus_append_singleton]
      · by_cases h2 : p.status = "pending"
        · simp [h2, beq_pending_paid, beq_pending_overdue,
            sumByStatus_append_singleton]
        · by_cases h3 : p.status = "overdue"
          · simp [h3, beq_overdue_paid, beq_overdue_pending,
              sumByStatus_append_singleton]
          · simp [beq_false_of_ne h1, beq_false_of_ne h2, beq_false_of_ne h3,
              sumByStatus_append_singleton]

/-- C6: the status distribution sums amounts across ALL payments separately
per status, emits one entry per status whose summed amount is strictly
positive, in the fixed order Paid, Pending, Overdue, omitting zero-amount
statuses; on the 100/50/25 scenario it yields exactly the three entries. -/
theorem status_distribution_spec (ps : List PaymentRow) :
    statusDistribution ps =
      ([("Paid", sumByStatus ps "paid"), ("Pending", sumByStatus ps "pending"),
        ("Overdue", sumByStatus ps "overdue")]).filter
          (fun e => decide (0 < e.2)) ∧
    (∀ e ∈ statusDistribution ps, 0 < e.2) ∧
    statusDistribution exPayments =
      [("Paid", 100), ("Pending", 50), ("Overdue", 25)] := by
  refine ⟨?_, ?_, ?_⟩
  · rw [statusDistribution, statusFold_eq]
  · intro e he
    rw [statusDistribution] at he
    simpa using (List.mem_filter.mp he).2
  · rw [statusDistribution, statusFold_eq]
    norm_num [sumByStatus, exPayments, List.filter_cons, beq_paid_pending,
      beq_paid_overdue, beq_pending_paid, beq_pending_overdue,
      beq_overdue_paid, beq_overdue_pending, decide_eq_true_eq]

theorem foldl_gStep_filter {V : Type} (key : PaymentRow → Option Nat)
    (g : PaymentRow → Option V → V) (e : PaymentRow → Bool)
    (hke : ∀ p, e p = false → key p = none) (ps : List PaymentRow) :
    ∀ m : List (Nat × V),
      (ps.filter e).foldl (gStep key g) m = ps.foldl (gStep key g) m := by
  induction ps with
  | nil => intro m; rfl
  | cons p ps ih =>
      intro m
      rw [List.filter_cons]
      cases he : e p
      · rw [if_neg (by simp [he]), ih, List.foldl_cons,
          show gStep key g m p = m from by simp [gStep, hke p he]]
      · rw [if_pos (by simp [he]), List.foldl_cons, List.foldl_cons]
        exact ih _

theorem not_elig_pMonthKey {p : PaymentRow}
    (h : (p.status == "paid" && p.paid_date.isSome) = false) :
    pMonthKey p = none := by
  cases hd : p.paid_date with
  | none => simp [pMonthKey, hd]
  | some d =>
      rw [hd] at h
      simp only [Option.isSome_some, Bool.and_true] at h
      simp [pMonthKey, hd, h]

theorem not_elig_pDayKey {p : PaymentRow}
    (h : (p.status == "paid" && p.paid_date.isSome) = false) :
    pDayKey p = none := by
  cases hd : p.paid_date with
  | none => simp [pDayKey, hd]
  | some d =>
      rw [hd] at h
      simp only [Option.isSome_some, Bool.and_true] at h
      simp [pDayKey, hd, h]

theorem monthlyMap_filter_elig (ps : List PaymentRow) :
    monthlyMap (ps.filter (fun p => p.status == "paid" && p.paid_date.isSome)) =
      monthlyMap ps := by
  rw [monthlyMap, monthlyMap]
  exact foldl_gStep_filter pMonthKey monthCombine _
    (fun p hp => not_elig_pMonthKey hp) ps []

theorem timelineMap_filter_elig (ps : List PaymentRow) :
    timelineMap (ps.filter (fun p => p.status == "paid" && p.paid_date.isSome)) =
      timelineMap ps := by
  rw [timelineMap, timelineMap]
  exact foldl_gStep_filter pDayKey dayCombine _
    (fun p hp => not_elig_pDayKey hp) ps []

/-- C5 counterexample: a pending payment with paid_date = null makes the
status-distribution output [("Pending", 50)] instead of the empty output of
the empty ledger — so a payment with null paid_date does contribute to one
of the three derivations, contrary to the claim. -/
theorem null_paid_date_contributes :
    statusDistribution [c5payment] = [("Pending", 50)] ∧
    statusDistribution ([] : List PaymentRow) = [] := by
  constructor
  · rw [statusDistribution, statusFold_eq]
    norm_num [sumByStatus, c5payment, List.filter_cons, beq_pending_paid,
      beq_pending_overdue, List.filter, decide_eq_true_eq]
  · rw [statusDistribution, statusFold_eq]
    norm_num [sumByStatus, List.filter, decide_eq_true_eq]

/-- C5 (amended): the monthly and daily chart derivations use only payments
with status "paid" and a non-null paid_date — restricting the input to those
payments leaves both outputs unchanged, so payments with null paid_date
contribute to neither — but the status distribution sums ALL payments,
including those with a null paid_date. -/
theorem chart_eligibility_spec (ps : List PaymentRow) :
    monthly (ps.filter (fun p => p.status == "paid" && p.paid_date.isSome)) =
      monthly ps ∧
    timeline (ps.filter (fun p => p.status == "paid" && p.paid_date.isSome)) =
      timeline ps ∧
    statusFold ps = (sumByStatus ps "paid", sumByStatus ps "pending",
      sumByStatus ps "overdue") := by
  refine ⟨?_, ?_, statusFold_eq ps⟩
  · simp only [monthly, monthlyMap_filter_elig]
  · simp only [timeline, timelineMap_filter_elig]

/-- C10: the Expenses view totals are the sum of all expense amounts, and
the "this month" figure is the sum of exactly those expenses whose date has
the current month and current year; an expense of another month or year
contributes nothing to the monthly figure. -/
theorem expenses_spec (es : List ExpenseRow) (now : SDate) :
    totalExpenses es = (es.map (fun e => e.amount)).sum ∧
    monthlyExpenses es now =
      ((es.filter (fun e =>
        e.date.month == now.month && e.date.year == now.year)).map
          (fun e => e.amount)).sum ∧
    (∀ e : ExpenseRow, e.date.month ≠ now.month ∨ e.date.year ≠ now.year →
      monthlyExpenses (es ++ [e]) now = monthlyExpenses es now) := by
  refine ⟨?_, ?_, ?_⟩
  · rw [totalExpenses, foldl_add_map (fun e : ExpenseRow => e.amount), zero_add]
  · rw [monthlyExpenses, foldl_add_map (fun e : ExpenseRow => e.amount),
      zero_add]
  · intro e he
    have hcond : (e.date.month == now.month && e.date.year == now.year)
        = false := by
      rcases he with h | h <;> simp [beq_false_of_ne h]
    rw [monthlyExpenses, monthlyExpenses, List.filter_append]
    simp [List.filter_cons, hcond]

/-- C10 witness: a March 2025 expense leaves the January 2025 monthly figure
unchanged. -/
theorem expenses_spec_witness :
    (c10expB.date.month ≠ c10now.month ∨ c10expB.date.year ≠ c10now.year) ∧
    monthlyExpenses ([c10expA] ++ [c10expB]) c10now =
      monthlyExpenses [c10expA] c10now :=
  ⟨Or.inl (by decide),
    (expenses_spec [c10expA] c10now).2.2 c10expB (Or.inl (by decide))⟩

/-- C4 witness: with paid payments in seven distinct months, the dropped
January 2024 bucket key is older than the kept February 2024 bucket. -/
theorem monthly_revenue_spec_witness :
    c4pay 1 ∈ c4payments ∧ pMonthKey (c4pay 1) = some (2024 * 12 + 0) ∧
    (2024 * 12 + 0) ∉ (monthly c4payments).map Prod.fst ∧
    c4bucket ∈ monthly c4payments ∧ (2024 * 12 + 0) < c4bucket.1 :=
  ⟨by decide, by decide, by decide, by decide,
    (monthly_revenue_spec c4payments).2.2.2 (c4pay 1) (by decide)
      (2024 * 12 + 0) (by decide) (by decide) c4bucket (by decide)⟩

/-- C9 witness: two dates of different years sharing month and day receive
the same timeline key. -/
theorem daily_timeline_spec_witness :
    (⟨2023, 5, 15⟩ : SDate).month = (⟨2024, 5, 15⟩ : SDate).month ∧
    (⟨2023, 5, 15⟩ : SDate).day = (⟨2024, 5, 15⟩ : SDate).day ∧
    dKey ⟨2023, 5, 15⟩ = dKey ⟨2024, 5, 15⟩ :=
  ⟨rfl, rfl, (daily_timeline_spec []).2.2.2.2 ⟨2023, 5, 15⟩ ⟨2024, 5, 15⟩
    rfl rfl⟩

end ConnectedAccounting
